import Mathlib

/-!
Verification development for the NetGuard repository (virtual_soc package).

The definitions below are shallow embeddings of the Python sources:
- virtual_soc/extractor.py : flow keying, the CICFlow per-flow aggregator,
  feature derivation, and the flow table with its two closure paths;
- virtual_soc/ids_engine.py : the hybrid decision engine (binary gate,
  rule engine, multiclass resolver, fusion) and the event ring buffer.

Python floats are modelled by exact rationals plus explicit non-finite
markers where sanitization matters; machine-level floating point rounding
is outside the scope of the embedding.  External pre-trained classifiers
are opaque in the source (pickled models); they enter the embedding as
function parameters, exactly at the call boundary the source uses.
-/

namespace NetGuard

/- ===== Association list helpers (model of Python dict access) ===== -/

/-- First binding of a key in an association list, as Python dict lookup. -/
def assocFind {κ υ : Type} [DecidableEq κ] : List (κ × υ) → κ → Option υ
  | [], _ => none
  | (k, v) :: rest, key => if k = key then some v else assocFind rest key

/-- Removal of every binding of a key, used to model dict.pop removal. -/
def assocErase {κ υ : Type} [DecidableEq κ] (l : List (κ × υ)) (key : κ) :
    List (κ × υ) :=
  l.filter (fun p => p.1 ≠ key)

/-- In-place mutation of the value stored under a key. -/
def assocUpdate {κ υ : Type} [DecidableEq κ] (l : List (κ × υ)) (key : κ)
    (f : υ → υ) : List (κ × υ) :=
  l.map (fun p => if p.1 = key then (p.1, f p.2) else p)

theorem assocFind_mem {κ υ : Type} [DecidableEq κ] {l : List (κ × υ)} {k : κ}
    {v : υ} (h : assocFind l k = some v) : (k, v) ∈ l := by
  induction l with
  | nil => simp [assocFind] at h
  | cons p rest ih =>
    by_cases hk : p.1 = k
    · simp only [assocFind, hk, if_pos] at h
      cases p with
      | mk pk pv =>
        simp only [Option.some.injEq] at h
        simp at hk
        subst hk
        subst h
        exact List.mem_cons_self _ _
    · simp only [assocFind, hk, if_neg, not_false_iff] at h
      exact List.mem_cons_of_mem _ (ih h)

theorem assocFind_eq_none {κ υ : Type} [DecidableEq κ] {l : List (κ × υ)}
    {k : κ} (h : assocFind l k = none) : ∀ p ∈ l, p.1 ≠ k := by
  induction l with
  | nil => simp
  | cons q rest ih =>
    intro p hp
    by_cases hk : q.1 = k
    · simp [assocFind, hk] at h
    · simp only [assocFind, hk, if_neg, not_false_iff] at h
      rcases List.mem_cons.mp hp with hq | hq
      · subst hq; exact hk
      · exact ih h p hq

/- ===== extractor.py : flow key normalization ===== -/

/-- Endpoint of a connection: (ip address, port), compared the way Python
compares tuples, lexicographically. -/
abbrev Endpoint := String × ℕ

/-- Python lexicographic tuple order on (address, port) pairs. -/
def endpointLe (x y : Endpoint) : Bool :=
  if x.1 = y.1 then decide (x.2 ≤ y.2) else decide (x.1 < y.1)

/-- A flow key is the sorted pair of endpoints, as produced by
tuple(sorted([(src_ip, src_port), (dst_ip, dst_port)])). -/
abbrev FlowKey := Endpoint × Endpoint

/-- Embedding of get_flow_key (extractor.py lines 250-251).  The transport
protocol is not an argument: the source computes the key from addresses and
ports only. -/
def get_flow_key (src_ip : String) (src_port : ℕ) (dst_ip : String)
    (dst_port : ℕ) : FlowKey :=
  if endpointLe (src_ip, src_port) (dst_ip, dst_port)
  then ((src_ip, src_port), (dst_ip, dst_port))
  else ((dst_ip, dst_port), (src_ip, src_port))

/-- Transport protocol of a captured packet (packet_handler keeps TCP and
UDP packets only). -/
inductive Proto where
  | tcp : Proto
  | udp : Proto
deriving DecidableEq

/-- The slice of a captured packet that packet_handler reads before
touching the flow table. -/
structure Packet where
  src : String
  dst : String
  sport : ℕ
  dport : ℕ
  proto : Proto
deriving DecidableEq

/-- Flow key computed by packet_handler (extractor.py line 323): the
protocol decides only which header the ports are read from, and is not part
of the key. -/
def packet_flow_key (p : Packet) : FlowKey :=
  get_flow_key p.src p.sport p.dst p.dport

theorem endpointLe_total (x y : Endpoint) :
    endpointLe x y = true ∨ endpointLe y x = true := by
  unfold endpointLe
  by_cases h1 : x.1 = y.1
  · simp [h1]; omega
  · simp only [h1, if_neg, not_false_iff]
    have h2 : y.1 ≠ x.1 := fun h => h1 h.symm
    simp only [h2, if_neg, not_false_iff]
    rcases lt_or_gt_of_ne h1 with h | h
    · left; exact decide_eq_true h
    · right; exact decide_eq_true h

theorem endpointLe_antisymm {x y : Endpoint} (hxy : endpointLe x y = true)
    (hyx : endpointLe y x = true) : x = y := by
  unfold endpointLe at hxy hyx
  by_cases h1 : x.1 = y.1
  · simp only [h1, if_pos, decide_eq_true_eq] at hxy
    have h1' : y.1 = x.1 := h1.symm
    simp only [h1', if_pos, decide_eq_true_eq] at hyx
    have : x.2 = y.2 := le_antisymm hxy hyx
    exact Prod.ext h1 this
  · have h2 : y.1 ≠ x.1 := fun h => h1 h.symm
    simp only [h1, h2, if_neg, not_false_iff, decide_eq_true_eq] at hxy hyx
    exact absurd (lt_trans hxy hyx) (lt_irrefl _)

/- ===== extractor.py : the CICFlow per-flow aggregator ===== -/

/-- Mutable per-flow state of class CICFlow (extractor.py lines 21-85).
The embedding keeps every field that the verified claims read: timing,
per-direction packet and byte counters, the SYN counter used by the
early-emit trigger, the flow-wide IAT list and the active/idle
segmentation state.  Length lists, per-direction IAT lists, the remaining
flag counters, window sizes and header lengths are mutated by the same
straight-line assignments and are not read by any claim. -/
structure CICFlow where
  start_time : ℚ
  last_seen : ℚ
  fwd_packets : ℕ
  bwd_packets : ℕ
  fwd_bytes : ℚ
  bwd_bytes : ℚ
  syn_count : ℕ
  last_pkt_time : Option ℚ
  current_active_start : Option ℚ
  flow_iat : List ℚ
  active_times : List ℚ
  idle_times : List ℚ
deriving DecidableEq

/-- Constructor of CICFlow: both clocks start at creation time, counters at
zero, sequences empty (extractor.py lines 24-85). -/
def CICFlow.init (now : ℚ) : CICFlow :=
  { start_time := now
    last_seen := now
    fwd_packets := 0
    bwd_packets := 0
    fwd_bytes := 0
    bwd_bytes := 0
    syn_count := 0
    last_pkt_time := none
    current_active_start := none
    flow_iat := []
    active_times := []
    idle_times := [] }

/-- Embedding of CICFlow.add_packet (extractor.py lines 87-161) for the
fields above.  pkt_time is the capture timestamp used for IAT and
segmentation; now is the wall clock written into last_seen.  The idle
threshold is the hard-coded 1,000,000 microseconds; on an idle gap the
closed active segment gets duration (pkt_time - active_start), exactly as
in the source. -/
def CICFlow.add_packet (f : CICFlow) (pkt_len : ℚ) (fwd : Bool) (syn : Bool)
    (pkt_time : ℚ) (now : ℚ) : CICFlow :=
  let timing : List ℚ × List ℚ × List ℚ × Option ℚ :=
    match f.last_pkt_time with
    | none => (f.flow_iat, f.active_times, f.idle_times, some pkt_time)
    | some last =>
      let iat := (pkt_time - last) * 1000000
      if iat > 1000000 then
        (f.flow_iat ++ [iat],
         (match f.current_active_start with
          | some c => f.active_times ++ [(pkt_time - c) * 1000000]
          | none => f.active_times),
         f.idle_times ++ [iat],
         some pkt_time)
      else
        (f.flow_iat ++ [iat], f.active_times, f.idle_times,
         some (f.current_active_start.getD last))
  { f with
    last_seen := now
    flow_iat := timing.1
    active_times := timing.2.1
    idle_times := timing.2.2.1
    current_active_start := timing.2.2.2
    last_pkt_time := some pkt_time
    fwd_packets := f.fwd_packets + (if fwd then 1 else 0)
    bwd_packets := f.bwd_packets + (if fwd then 0 else 1)
    fwd_bytes := f.fwd_bytes + (if fwd then pkt_len else 0)
    bwd_bytes := f.bwd_bytes + (if fwd then 0 else pkt_len)
    syn_count := f.syn_count + (if syn then 1 else 0) }

/-- Flow duration in microseconds with the zero floor, the local variable
duration of CICFlow.get_features (extractor.py lines 168-169). -/
def CICFlow.duration_us (f : CICFlow) : ℚ :=
  let d := (f.last_seen - f.start_time) * 1000000
  if d = 0 then 1 else d

/-- Feature "Flow Bytes/s" (extractor.py line 189). -/
def CICFlow.flow_bytes_per_s (f : CICFlow) : ℚ :=
  if f.duration_us > 0
  then (f.fwd_bytes + f.bwd_bytes) / (f.duration_us / 1000000)
  else 0

/-- Feature "Flow Packets/s" (extractor.py line 190). -/
def CICFlow.flow_packets_per_s (f : CICFlow) : ℚ :=
  if f.duration_us > 0
  then ((f.fwd_packets : ℚ) + (f.bwd_packets : ℚ)) / (f.duration_us / 1000000)
  else 0

/-- Feature "Fwd Packets/s" (extractor.py line 209). -/
def CICFlow.fwd_packets_per_s (f : CICFlow) : ℚ :=
  if f.duration_us > 0
  then (f.fwd_packets : ℚ) / (f.duration_us / 1000000)
  else 0

/-- Feature "Bwd Packets/s" (extractor.py line 210). -/
def CICFlow.bwd_packets_per_s (f : CICFlow) : ℚ :=
  if f.duration_us > 0
  then (f.bwd_packets : ℚ) / (f.duration_us / 1000000)
  else 0

/-- One captured packet as fed to a single flow: length, direction, SYN
bit, capture timestamp.  In the theorems about packet timing the wall
clock is identified with the capture timestamp, which is the live-capture
reading of the sweep and duration clocks. -/
structure PktIn where
  len : ℚ
  fwd : Bool
  syn : Bool
  t : ℚ
deriving DecidableEq

/-- State of one flow after its first packet p and the further packets ps,
as produced by packet_handler feeding CICFlow. -/
def runFlow1 (p : PktIn) (ps : List PktIn) : CICFlow :=
  ps.foldl (fun f q => f.add_packet q.len q.fwd q.syn q.t q.t)
    ((CICFlow.init p.t).add_packet p.len p.fwd p.syn p.t p.t)

/- ===== ids_engine.py : values, thresholds, feature access ===== -/

/-- Numeric value of a feature as a Python float: an exact rational or one
of the non-finite markers that np.nan_to_num sanitizes. -/
inductive PyFloat where
  | num : ℚ → PyFloat
  | nan : PyFloat
  | posinf : PyFloat
  | neginf : PyFloat
deriving DecidableEq

/-- Embedding of np.nan_to_num(x, nan=0.0, posinf=0.0, neginf=0.0)
applied pointwise (ids_engine.py line 331). -/
def nan_to_num : PyFloat → ℚ
  | .num q => q
  | .nan => 0
  | .posinf => 0
  | .neginf => 0

/-- The features mapping of a classification request: named numeric
fields.  The rule engine and the multiclass path read these values as
numbers; the extractor emits finite rationals, so the finite projection is
used there, while the non-finite markers feed the binary-gate
sanitization step, the only place the source sanitizes. -/
abbrev Features := List (String × PyFloat)

/-- Embedding of features.get(name, default) followed by numeric use. -/
def Features.get (fs : Features) (name : String) (default : ℚ) : ℚ :=
  match assocFind fs name with
  | some v => nan_to_num v
  | none => default

/-- Detection threshold ATTACK_THRESHOLD (ids_engine.py line 36). -/
def ATTACK_THRESHOLD : ℚ := 0.25

/-- Detection threshold CONFIDENT_BENIGN_THRESHOLD (ids_engine.py
line 37). -/
def CONFIDENT_BENIGN_THRESHOLD : ℚ := 0.80

/- ===== ids_engine.py : rule engine ===== -/

/-- Embedding of rule_based_classification (ids_engine.py lines 124-268).
The nested port-group conditionals of the source are flattened into one
ordered guard list; a nested check that falls through to the next pattern
in the source falls through to the same pattern here. -/
def rule_based_classification (fs : Features) : String × ℚ :=
  let dst_port := fs.get "Destination Port" 0
  let syn_count := fs.get "SYN Flag Count" 0
  let rst_count := fs.get "RST Flag Count" 0
  let ack_count := fs.get "ACK Flag Count" 0
  let psh_count := fs.get "PSH Flag Count" 0
  let fwd_packets := fs.get "Total Fwd Packets" 0
  let bwd_packets := fs.get "Total Backward Packets" 0
  let fwd_bytes := fs.get "Total Length of Fwd Packets" 0
  let bwd_bytes := fs.get "Total Length of Bwd Packets" 0
  let flow_duration := fs.get "Flow Duration" 1
  let total_packets := fwd_packets + bwd_packets
  let pps := if flow_duration > 0
             then total_packets / (flow_duration / 1000000)
             else fwd_packets
  let is_asymmetric := bwd_packets = 0 ∨ fwd_packets > bwd_packets * 2
  let is_very_asymmetric := bwd_packets = 0 ∨ fwd_packets > bwd_packets * 5
  let web_port := dst_port = 80 ∨ dst_port = 443 ∨ dst_port = 8080
  if web_port ∧ syn_count ≥ 2 ∧ is_very_asymmetric then ("DDoS", 0.90)
  else if web_port ∧ fwd_packets ≥ 2 ∧ syn_count ≥ 1 ∧ is_asymmetric ∧
      ack_count ≤ syn_count then ("DDoS", 0.85)
  else if web_port ∧ pps > 20 then ("DDoS", 0.80)
  else if pps > 50 ∧ is_asymmetric then ("DDoS", 0.85)
  else if dst_port = 80 ∧ psh_count ≥ 3 ∧ fwd_packets ≥ 5 then
    ("DoS Hulk", 0.80)
  else if (dst_port = 80 ∨ dst_port = 443) ∧ flow_duration > 30000000 ∧
      fwd_packets ≥ 2 ∧ pps < 5 then ("DoS slowloris", 0.75)
  else if dst_port = 80 ∧ psh_count ≥ 5 ∧ fwd_packets ≥ 10 then
    ("DoS GoldenEye", 0.75)
  else if syn_count ≥ 1 ∧ rst_count ≥ 1 ∧ fwd_packets ≤ 3 ∧
      flow_duration < 2000000 then ("PortScan", 0.85)
  else if syn_count ≥ 1 ∧ bwd_packets = 0 ∧ fwd_packets ≤ 2 ∧ ¬web_port then
    ("PortScan", 0.80)
  else if dst_port = 22 ∧ (fwd_packets ≥ 3 ∨ syn_count ≥ 2) then
    ("SSH-Patator", 0.85)
  else if dst_port = 21 ∧ (fwd_packets ≥ 3 ∨ syn_count ≥ 2) then
    ("FTP-Patator", 0.85)
  else if dst_port = 23 ∧ fwd_packets ≥ 3 then ("Telnet Brute Force", 0.80)
  else if dst_port = 3389 ∧ fwd_packets ≥ 3 then ("RDP Brute Force", 0.80)
  else if (dst_port = 80 ∨ dst_port = 443 ∨ dst_port = 8080 ∨
      dst_port = 8443) ∧ psh_count ≥ 3 ∧ fwd_bytes > 1000 then
    ("Web Attack", 0.70)
  else if flow_duration > 30000000 ∧ fwd_packets ≥ 3 ∧ pps > 0.5 ∧
      pps < 10 then ("Bot", 0.65)
  else if dst_port > 10000 ∧ fwd_bytes > 5000 then ("Infiltration", 0.60)
  else if dst_port = 443 ∧ bwd_bytes > fwd_bytes * 10 then
    ("Heartbleed", 0.65)
  else if web_port ∧ is_asymmetric then ("DDoS", 0.70)
  else if (dst_port = 22 ∨ dst_port = 21 ∨ dst_port = 23 ∨
      dst_port = 3389) ∧ fwd_packets ≥ 2 then ("Brute Force", 0.65)
  else ("Unknown Attack", 0.50)

/- ===== ids_engine.py : binary gate ===== -/

/-- The fixed old-name to new-name table feature_map
(ids_engine.py lines 309-316). -/
def feature_map : List (String × String) :=
  [("Flow Duration", "Flow Duration"),
   ("Total Fwd Packets", "Total Fwd Packet"),
   ("Total Backward Packets", "Total Bwd packets"),
   ("Total Length of Fwd Packets", "Total Length of Fwd Packet"),
   ("Total Length of Bwd Packets", "Total Length of Bwd Packet")]

/-- Value assembled for one name of the binary feature schema
(ids_engine.py lines 318-328): start at 0, take a direct name match, then
let the first applicable feature_map alternative override it. -/
def binary_feature_value (fs : Features) (feat_name : String) : PyFloat :=
  let direct := match assocFind fs feat_name with
    | some v => v
    | none => .num 0
  match feature_map.findSome?
      (fun p => if p.2 = feat_name then assocFind fs p.1 else none) with
  | some v => v
  | none => direct

/-- The feature vector remapped onto the binary classifier schema,
before sanitization (ids_engine.py lines 318-330). -/
def build_binary_vector (names : List String) (fs : Features) :
    List PyFloat :=
  names.map (binary_feature_value fs)

/-- Embedding of the binary-gate block of predict_flow (ids_engine.py
lines 306-339): remap, sanitize, score through the opaque scaler plus
classifier (the model parameter), and decide.  Returns
(is_attack, attack_prob, benign_prob). -/
def binary_gate (names : List String) (model : List ℚ → ℚ × ℚ)
    (fs : Features) : Bool × ℚ × ℚ :=
  let vec := (build_binary_vector names fs).map nan_to_num
  let probs := model vec
  (decide (probs.1 > ATTACK_THRESHOLD) ||
     decide (probs.2 < CONFIDENT_BENIGN_THRESHOLD),
   probs.1, probs.2)

/- ===== ids_engine.py : multiclass resolver and prediction handler ===== -/

/-- Python tuple returned by classify_attack_type_ml: the source returns a
2-tuple on the model-unavailable branch and 3-tuples on the other two
branches, so the arity is part of the value. -/
inductive MLResult where
  | pair : String → ℚ → MLResult
  | triple : String → ℚ → List (String × ℚ) → MLResult
deriving DecidableEq

/-- Outcome of the opaque multiclass pipeline (pandas frame, preprocessor,
feature selection, predict_proba): a top class with confidence and top-3
list, or a raised exception. -/
abbrev MCOutcome := Except String (String × ℚ × List (String × ℚ))

/-- Embedding of classify_attack_type_ml (ids_engine.py lines 83-121).
A missing model yields the 2-tuple of line 89; a raised exception inside
the try block is caught and yields the 3-tuple of line 121. -/
def classify_attack_type_ml (mc : Option (Features → MCOutcome))
    (fs : Features) : MLResult :=
  match mc with
  | none => .pair "Unknown" 0.5
  | some m =>
    match m fs with
    | .ok (t, c, top3) => .triple t c top3
    | .error _ => .triple "Unknown" 0.5 []

/-- The response body assembled by predict_flow (ids_engine.py lines
376-389).  The wall-clock timestamp string is not modelled. -/
structure Event where
  src_ip : String
  dst_ip : String
  dst_port : ℚ
  label : String
  attack_type : String
  confidence : ℚ
  is_malicious : Bool
  detection_method : String
  ml_attack_prob : ℚ
  ml_attack_type : String
deriving DecidableEq

/-- Embedding of the predict_flow handler (ids_engine.py lines 287-407),
parametrized by the rule function it calls, the binary feature schema and
model, and the multiclass model.  The unpacking assignment of line 354
raises ValueError on a 2-tuple; the surrounding try of the handler turns
any such exception into an HTTP 400 error, modelled by the error case. -/
def predict_flow (ruleFn : Features → String × ℚ) (names : List String)
    (binModel : Option (List ℚ → ℚ × ℚ))
    (mcModel : Option (Features → MCOutcome))
    (src_ip dst_ip : String) (fs : Features) : Except String Event :=
  let dst_port := fs.get "Destination Port" 0
  let step1 : Bool × ℚ × ℚ :=
    match binModel with
    | none => (false, 0.5, 0)
    | some model =>
      let g := binary_gate names model fs
      (g.1, max g.2.1 g.2.2, g.2.1)
  let is_attack := step1.1
  let binary_confidence := step1.2.1
  let attack_prob := step1.2.2
  if is_attack || decide (attack_prob > 0.20) then
    let rule := ruleFn fs
    match classify_attack_type_ml mcModel fs with
    | .pair _ _ =>
      .error "ValueError: not enough values to unpack (expected 3, got 2)"
    | .triple ml_type ml_conf _ =>
      let fused : String × ℚ × String :=
        if rule.2 ≥ 0.70 ∧ rule.1 ≠ "Unknown Attack" then
          (rule.1, rule.2, "rules")
        else if ml_type ≠ "BENIGN" ∧ ml_conf > 0.30 then
          (ml_type, ml_conf, "ml-multiclass")
        else (rule.1, rule.2, "rules")
      .ok { src_ip := src_ip
            dst_ip := dst_ip
            dst_port := dst_port
            label := "ATTACK"
            attack_type := fused.1
            confidence := fused.2.1
            is_malicious := true
            detection_method := fused.2.2
            ml_attack_prob := attack_prob
            ml_attack_type := ml_type }
  else
    .ok { src_ip := src_ip
          dst_ip := dst_ip
          dst_port := dst_port
          label := "BENIGN"
          attack_type := "BENIGN"
          confidence := binary_confidence
          is_malicious := false
          detection_method := "ml"
          ml_attack_prob := attack_prob
          ml_attack_type := "BENIGN" }

/- ===== ids_engine.py : event ring buffer ===== -/

/-- Append to a deque with a maximum length: the element goes to the right
end and the oldest entries fall off the left end once the capacity is
reached (collections.deque(maxlen=...) semantics for EVENT_HISTORY,
ids_engine.py line 27). -/
def deque_append {α : Type} (maxlen : ℕ) (h : List α) (x : α) : List α :=
  let l := h ++ [x]
  l.drop (l.length - maxlen)

/-- Capacity of EVENT_HISTORY (ids_engine.py line 27). -/
def EVENT_HISTORY_MAXLEN : ℕ := 100

/-- Embedding of the get_events endpoint (ids_engine.py lines 410-412):
list(EVENT_HISTORY) iterates the deque from its left (oldest) end to its
right (newest) end. -/
def get_events {α : Type} (hist : List α) : List α := hist

/- ===== extractor.py : flow table and the two closure paths ===== -/

/-- Constant MIN_PACKETS (extractor.py line 17). -/
def MIN_PACKETS : ℕ := 2

/-- Constant FLOW_TIMEOUT in seconds (extractor.py line 16). -/
def FLOW_TIMEOUT : ℚ := 2

/-- One live entry of the active_flows table.  gen is a ghost sequence
number naming the CICFlow object identity: each Python object created by
packet_handler is a distinct allocation, and emission is counted per
object. -/
structure TableEntry where
  gen : ℕ
  flow : CICFlow
deriving DecidableEq

/-- Shared state of the aggregator: the active_flows dict, the ghost log
of (flow key, generation) pairs handed to feature extraction by
send_flow_to_api, and the ghost allocation counter.  Logging the key of
every hand-off lets the theorems distinguish per-record uniqueness from
per-key uniqueness. -/
structure AggState where
  active_flows : List (FlowKey × TableEntry)
  emitted : List (FlowKey × ℕ)
  next_gen : ℕ
deriving DecidableEq

/-- Embedding of send_flow_to_api (extractor.py lines 253-288) at the
flow-table level: the atomic active_flows.pop(flow_key, None), the minimum
packet count check, and the hand-off of the record to feature extraction
(recorded in the emitted log).  The HTTP call and console output do not
touch the shared state. -/
def send_flow_to_api (s : AggState) (k : FlowKey) : AggState :=
  match assocFind s.active_flows k with
  | none => s
  | some e =>
    let s2 := { s with active_flows := assocErase s.active_flows k }
    if e.flow.fwd_packets + e.flow.bwd_packets < MIN_PACKETS then s2
    else { s2 with emitted := s2.emitted ++ [(k, e.gen)] }

/-- Table mutation of packet_handler (extractor.py lines 323-332): create
the CICFlow on a missing key, then add the packet to the entry under the
key.  Direction and flag bits arrive as arguments, as the claims never
depend on how packet_handler derives them from the stored endpoints. -/
def packet_handler (s : AggState) (k : FlowKey) (pkt_len : ℚ)
    (fwd syn : Bool) (pkt_time now : ℚ) : AggState :=
  match assocFind s.active_flows k with
  | none =>
    { s with
      active_flows :=
        (k, ⟨s.next_gen,
             (CICFlow.init now).add_packet pkt_len fwd syn pkt_time now⟩)
          :: s.active_flows
      next_gen := s.next_gen + 1 }
  | some _ =>
    { s with
      active_flows := assocUpdate s.active_flows k
        (fun e => ⟨e.gen, e.flow.add_packet pkt_len fwd syn pkt_time now⟩) }

/-- Interleaved events of the aggregator.  packet is one table mutation of
the ingestion thread; early_emit is the ingestion-path call of
send_flow_to_api right after a packet (extractor.py lines 334-336), here
enabled unconditionally, which only enlarges the set of traces the safety
theorem covers; sweep is one eviction by flow_timeout_checker (lines
290-296); flush is one call of the final drain in main (lines 361-362).
Every closure path of the source funnels into send_flow_to_api. -/
inductive AggStep where
  | packet (k : FlowKey) (pkt_len : ℚ) (fwd syn : Bool) (pkt_time now : ℚ)
  | early_emit (k : FlowKey)
  | sweep (k : FlowKey) (now : ℚ)
  | flush (k : FlowKey)

/-- Effect of one interleaved event on the shared state. -/
def agg_step (s : AggState) : AggStep → AggState
  | .packet k len fwd syn t now => packet_handler s k len fwd syn t now
  | .early_emit k => send_flow_to_api s k
  | .sweep k now =>
    match assocFind s.active_flows k with
    | some e =>
      if now - e.flow.last_seen > FLOW_TIMEOUT then send_flow_to_api s k
      else s
    | none => s
  | .flush k => send_flow_to_api s k

/-- Initial shared state: empty table, nothing emitted. -/
def agg_init : AggState := ⟨[], [], 0⟩

/-- State reached by a finite interleaving of ingestion, early-emit,
sweeper and shutdown events. -/
def agg_run (steps : List AggStep) : AggState :=
  steps.foldl agg_step agg_init

/-- Generations of the records currently owned by the flow table. -/
def tableGens (s : AggState) : List ℕ :=
  s.active_flows.map (fun p => p.2.gen)

/-- Generations of the records already handed to feature extraction. -/
def emittedGens (s : AggState) : List ℕ :=
  s.emitted.map Prod.snd

/-- Structural invariant of the shared state: distinct keys, distinct live
records, an emission log without duplicate records, ghost counter
freshness, and no live record already emitted. -/
def AggInv (s : AggState) : Prop :=
  (s.active_flows.map Prod.fst).Nodup ∧
  (tableGens s).Nodup ∧
  (emittedGens s).Nodup ∧
  (∀ g ∈ tableGens s, g < s.next_gen) ∧
  (∀ g ∈ emittedGens s, g < s.next_gen) ∧
  (∀ g ∈ tableGens s, g ∉ emittedGens s)

theorem assocErase_sublist {κ υ : Type} [DecidableEq κ]
    (l : List (κ × υ)) (k : κ) : (assocErase l k).Sublist l :=
  List.filter_sublist l

theorem mem_assocErase {κ υ : Type} [DecidableEq κ] {l : List (κ × υ)}
    {k : κ} {p : κ × υ} (h : p ∈ assocErase l k) : p ∈ l ∧ p.1 ≠ k := by
  unfold assocErase at h
  have := List.mem_filter.mp h
  exact ⟨this.1, by simpa using this.2⟩

theorem assocUpdate_map_eq {κ υ β : Type} [DecidableEq κ]
    (l : List (κ × υ)) (k : κ) (f : υ → υ) (g : κ × υ → β)
    (hg : ∀ p : κ × υ, g (p.1, f p.2) = g p) :
    (assocUpdate l k f).map g = l.map g := by
  unfold assocUpdate
  rw [List.map_map]
  apply List.map_congr_left
  intro p _
  by_cases hpk : p.1 = k
  · simp only [Function.comp_apply, hpk, if_pos]
    simpa [hpk] using hg p
  · simp [Function.comp_apply, hpk]

theorem tableGens_send_subset {s : AggState} {k : FlowKey} :
    ∀ g ∈ tableGens (send_flow_to_api s k), g ∈ tableGens s := by
  intro g hg
  unfold send_flow_to_api at hg
  cases hf : assocFind s.active_flows k with
  | none => simpa [hf] using hg
  | some e =>
    simp only [hf] at hg
    have herase : g ∈ tableGens { s with active_flows := assocErase s.active_flows k } → g ∈ tableGens s := by
      intro hh
      unfold tableGens at hh ⊢
      rcases List.mem_map.mp hh with ⟨p, hp, hpg⟩
      exact List.mem_map.mpr ⟨p, (mem_assocErase hp).1, hpg⟩
    by_cases hmin : e.flow.fwd_packets + e.flow.bwd_packets < MIN_PACKETS
    · simp only [hmin, if_pos] at hg
      exact herase hg
    · simp only [hmin, if_neg, not_false_iff] at hg
      exact herase hg

theorem gen_notin_erase {s : AggState} {k : FlowKey} {e : TableEntry}
    (hinv : AggInv s) (hf : assocFind s.active_flows k = some e) :
    e.gen ∉ tableGens { s with active_flows := assocErase s.active_flows k } := by
  intro hmem
  unfold tableGens at hmem
  rcases List.mem_map.mp hmem with ⟨p, hp, hpg⟩
  rcases mem_assocErase hp with ⟨hpl, hpk⟩
  have hkel : (k, e) ∈ s.active_flows := assocFind_mem hf
  have hinj := List.inj_on_of_nodup_map (hinv.2.1)
  have : p = (k, e) := hinj hpl hkel hpg
  rw [this] at hpk
  exact hpk rfl

theorem AggInv_send (s : AggState) (k : FlowKey) (h : AggInv s) :
    AggInv (send_flow_to_api s k) := by
  obtain ⟨hkeys, hgens, hem, hbt, hbe, hdisj⟩ := h
  unfold send_flow_to_api
  cases hf : assocFind s.active_flows k with
  | none => exact ⟨hkeys, hgens, hem, hbt, hbe, hdisj⟩
  | some e =>
    have hkel : (k, e) ∈ s.active_flows := assocFind_mem hf
    have hgent : e.gen ∈ tableGens s :=
      List.mem_map.mpr ⟨(k, e), hkel, rfl⟩
    have hsub : (assocErase s.active_flows k).Sublist s.active_flows :=
      assocErase_sublist _ _
    have hkeys2 : ((assocErase s.active_flows k).map Prod.fst).Nodup :=
      (hsub.map Prod.fst).nodup hkeys
    have hgens' :
        (s.active_flows.map (fun p : FlowKey × TableEntry => p.2.gen)).Nodup := by
      simpa [tableGens] using hgens
    have hgens2 :
        ((assocErase s.active_flows k).map
          (fun p : FlowKey × TableEntry => p.2.gen)).Nodup :=
      (hsub.map (fun p : FlowKey × TableEntry => p.2.gen)).nodup hgens'
    have hgsub : ∀ g, g ∈ ((assocErase s.active_flows k).map (fun p => p.2.gen)) → g ∈ tableGens s := by
      intro g hg
      rcases List.mem_map.mp hg with ⟨p, hp, hpg⟩
      exact List.mem_map.mpr ⟨p, (mem_assocErase hp).1, hpg⟩
    have hnotin :
        e.gen ∉ tableGens { s with active_flows := assocErase s.active_flows k } :=
      gen_notin_erase ⟨hkeys, hgens, hem, hbt, hbe, hdisj⟩ hf
    by_cases hmin : e.flow.fwd_packets + e.flow.bwd_packets < MIN_PACKETS
    · simp only [hmin, if_pos]
      exact ⟨hkeys2, hgens2, hem,
        fun g hg => hbt g (hgsub g hg), hbe,
        fun g hg => hdisj g (hgsub g hg)⟩
    · simp only [hmin, if_neg, not_false_iff]
      refine ⟨hkeys2, hgens2, ?_, fun g hg => hbt g (hgsub g hg), ?_, ?_⟩
      · simp only [emittedGens, List.map_append, List.map_cons, List.map_nil]
        rw [List.nodup_append]
        refine ⟨hem, List.nodup_singleton _, ?_⟩
        intro g hg hg1
        rcases List.mem_singleton.mp hg1 with rfl
        exact hdisj _ hgent hg
      · intro g hg
        simp only [emittedGens, List.map_append, List.map_cons,
          List.map_nil] at hg
        rcases List.mem_append.mp hg with hg | hg
        · exact hbe g hg
        · rcases List.mem_singleton.mp hg with rfl
          exact hbt _ hgent
      · intro g hg hgm
        simp only [emittedGens, List.map_append, List.map_cons,
          List.map_nil] at hgm
        rcases List.mem_append.mp hgm with hgm | hgm
        · exact hdisj g (hgsub g hg) hgm
        · rcases List.mem_singleton.mp hgm with rfl
          exact hnotin hg

theorem AggInv_packet (s : AggState) (k : FlowKey) (len : ℚ)
    (fwd syn : Bool) (t now : ℚ) (h : AggInv s) :
    AggInv (packet_handler s k len fwd syn t now) := by
  obtain ⟨hkeys, hgens, hem, hbt, hbe, hdisj⟩ := h
  cases hf : assocFind s.active_flows k with
  | none =>
    have hknotin : k ∉ s.active_flows.map Prod.fst := by
      intro hkm
      rcases List.mem_map.mp hkm with ⟨p, hp, hpk⟩
      exact assocFind_eq_none hf p hp hpk
    have hgnotin : s.next_gen ∉ tableGens s := by
      intro hgm
      exact absurd (hbt _ hgm) (lt_irrefl _)
    unfold packet_handler
    rw [hf]
    refine ⟨?_, ?_, hem, ?_, ?_, ?_⟩
    · simp only [List.map_cons]
      exact List.nodup_cons.mpr ⟨hknotin, hkeys⟩
    · unfold tableGens
      simp only [List.map_cons]
      exact List.nodup_cons.mpr ⟨hgnotin, hgens⟩
    · intro g hg
      unfold tableGens at hg
      simp only [List.map_cons, List.mem_cons] at hg
      rcases hg with rfl | hg
      · simp
      · have := hbt g hg
        simp only
        omega
    · intro g hg
      simp only at hg ⊢
      have := hbe g hg
      omega
    · intro g hg
      unfold tableGens at hg
      simp only [List.map_cons, List.mem_cons] at hg
      simp only
      rcases hg with rfl | hg
      · intro hgm
        exact absurd (hbe _ hgm) (lt_irrefl _)
      · exact hdisj g hg
  | some e =>
    have hkeq : (assocUpdate s.active_flows k
        (fun e => ⟨e.gen, e.flow.add_packet len fwd syn t now⟩)).map Prod.fst
        = s.active_flows.map Prod.fst :=
      assocUpdate_map_eq _ _ _ _ (fun p => rfl)
    have hgeq : (assocUpdate s.active_flows k
        (fun e => ⟨e.gen, e.flow.add_packet len fwd syn t now⟩)).map
          (fun p : FlowKey × TableEntry => p.2.gen)
        = s.active_flows.map (fun p : FlowKey × TableEntry => p.2.gen) :=
      assocUpdate_map_eq _ _ _ _ (fun p => rfl)
    unfold packet_handler
    rw [hf]
    refine ⟨?_, ?_, hem, ?_, hbe, ?_⟩
    · simpa only [hkeq] using hkeys
    · unfold tableGens
      simp only
      rw [hgeq]
      simpa [tableGens] using hgens
    · intro g hg
      unfold tableGens at hg
      simp only at hg ⊢
      rw [hgeq] at hg
      exact hbt g (by simpa [tableGens] using hg)
    · intro g hg
      unfold tableGens at hg
      simp only at hg
      rw [hgeq] at hg
      exact hdisj g (by simpa [tableGens] using hg)

theorem AggInv_step (s : AggState) (st : AggStep) (h : AggInv s) :
    AggInv (agg_step s st) := by
  cases st with
  | packet k len fwd syn t now => exact AggInv_packet s k len fwd syn t now h
  | early_emit k => exact AggInv_send s k h
  | sweep k now =>
    cases hf : assocFind s.active_flows k with
    | none => simpa only [agg_step, hf] using h
    | some e =>
      by_cases ht : now - e.flow.last_seen > FLOW_TIMEOUT
      · simpa only [agg_step, hf, ht, if_pos] using AggInv_send s k h
      · simpa only [agg_step, hf, ht, if_neg, not_false_iff] using h
  | flush k => exact AggInv_send s k h

theorem AggInv_run (steps : List AggStep) : AggInv (agg_run steps) := by
  have base : AggInv agg_init := by
    refine ⟨?_, ?_, ?_, ?_, ?_, ?_⟩ <;> simp [agg_init, tableGens, emittedGens]
  unfold agg_run
  have gen : ∀ (l : List AggStep) (s : AggState), AggInv s →
      AggInv (l.foldl agg_step s) := by
    intro l
    induction l with
    | nil => intro s hs; exact hs
    | cons st rest ih =>
      intro s hs
      exact ih _ (AggInv_step s st hs)
  exact gen steps agg_init base

/- ===== Claim C3 : flow key normalization ===== -/

theorem get_flow_key_symm (a : String) (p : ℕ) (b : String) (q : ℕ) :
    get_flow_key a p b q = get_flow_key b q a p := by
  unfold get_flow_key
  by_cases h1 : endpointLe (a, p) (b, q) = true
  · by_cases h2 : endpointLe (b, q) (a, p) = true
    · have heq := endpointLe_antisymm h1 h2
      simp only [h1, h2, if_pos, heq]
    · simp only [h1, h2, if_pos]
      simp [h2]
  · have h2 : endpointLe (b, q) (a, p) = true := by
      rcases endpointLe_total (a, p) (b, q) with h | h
      · exact absurd h h1
      · exact h
    simp [h1, h2]

/-- Claim C3 counterexample: two packets with identical endpoints but
different transport protocols (one TCP, one UDP) are mapped by
packet_handler to the same flow key, refuting the claim that flows with
the same endpoints and different protocols resolve to distinct keys:
get_flow_key never reads the protocol. -/
theorem claim_C3_counterexample :
    packet_flow_key ⟨"10.0.0.1", "10.0.0.2", 1234, 80, Proto.tcp⟩ =
      packet_flow_key ⟨"10.0.0.1", "10.0.0.2", 1234, 80, Proto.udp⟩ ∧
    Proto.tcp ≠ Proto.udp := by
  constructor
  · rfl
  · decide

/-- Claim C3 (amended): the flow key is the sorted, unordered pair of the
two (address, port) endpoints with no protocol component, so
key(A to B) = key(B to A) for every connection, and packets that differ
only in transport protocol resolve to the same key. -/
theorem claim_C3_amended :
    (∀ (a : String) (p : ℕ) (b : String) (q : ℕ),
      get_flow_key a p b q = get_flow_key b q a p) ∧
    (∀ (src dst : String) (sp dp : ℕ) (pr1 pr2 : Proto),
      packet_flow_key ⟨src, dst, sp, dp, pr1⟩ =
        packet_flow_key ⟨src, dst, sp, dp, pr2⟩) :=
  ⟨get_flow_key_symm, fun _ _ _ _ _ _ => rfl⟩

/- ===== Claim C8 : events query ordering ===== -/

/-- Claim C8 counterexample: after appending event 0 and then event 1,
the events query returns [0, 1], oldest first, not the most-recent-first
order [1, 0] the claim requires. -/
theorem claim_C8_counterexample :
    get_events (deque_append EVENT_HISTORY_MAXLEN
        (deque_append EVENT_HISTORY_MAXLEN ([] : List ℕ) 0) 1) = [0, 1] ∧
    ([0, 1] : List ℕ) ≠ [1, 0] := by
  constructor
  · rfl
  · decide

theorem foldl_deque_append {α : Type} (xs : List α) : ∀ (l : List α),
    l.length ≤ EVENT_HISTORY_MAXLEN →
    xs.foldl (deque_append EVENT_HISTORY_MAXLEN) l =
      (l ++ xs).drop (l.length + xs.length - EVENT_HISTORY_MAXLEN) := by
  induction xs with
  | nil =>
    intro l hl
    simp only [List.foldl_nil, List.append_nil, List.length_nil,
      Nat.add_zero]
    have : l.length - EVENT_HISTORY_MAXLEN = 0 := by omega
    rw [this, List.drop_zero]
  | cons x rest ih =>
    intro l hl
    rw [List.foldl_cons]
    have hstep : deque_append EVENT_HISTORY_MAXLEN l x =
        (l ++ [x]).drop (l.length + 1 - EVENT_HISTORY_MAXLEN) := by
      unfold deque_append
      simp [List.length_append]
    have hlen : (deque_append EVENT_HISTORY_MAXLEN l x).length ≤
        EVENT_HISTORY_MAXLEN := by
      rw [hstep, List.length_drop, List.length_append]
      simp only [List.length_singleton]
      omega
    rw [ih _ hlen, hstep]
    have hd : l.length + 1 - EVENT_HISTORY_MAXLEN ≤ (l ++ [x]).length := by
      rw [List.length_append]
      simp only [List.length_singleton]
      omega
    rw [← List.drop_append_of_le_length hd, List.drop_drop]
    have hassoc : (l ++ [x]) ++ rest = l ++ (x :: rest) := by
      rw [List.append_assoc]
      rfl
    rw [hassoc]
    congr 1
    simp only [hstep, List.length_drop, List.length_append, List.length_cons,
      List.length_nil, List.length_singleton]
    omega

/-- Claim C8 (amended): the events query returns the ring buffer contents
in insertion order, oldest first, keeping only the most recent 100
entries (older entries are overwritten first). -/
theorem claim_C8_amended (xs : List ℕ) :
    get_events (xs.foldl (deque_append EVENT_HISTORY_MAXLEN) []) =
      xs.drop (xs.length - EVENT_HISTORY_MAXLEN) := by
  have h := foldl_deque_append xs [] (by simp [EVENT_HISTORY_MAXLEN])
  simpa [get_events] using h

/- ===== Claim C7 : rate features are total and positive-denominator ===== -/

/-- Safety facts about the rate features of one flow record: duration is
positive after the zero floor, a zero raw duration is floored to exactly
1 microsecond, the rate denominator is nonzero, and each rate equals the
corresponding count divided by the duration in seconds. -/
def RateFormulas (f : CICFlow) : Prop :=
  0 < f.duration_us ∧
  (f.last_seen = f.start_time → f.duration_us = 1) ∧
  f.duration_us / 1000000 ≠ 0 ∧
  f.flow_bytes_per_s = (f.fwd_bytes + f.bwd_bytes) / (f.duration_us / 1000000) ∧
  f.flow_packets_per_s =
    ((f.fwd_packets : ℚ) + (f.bwd_packets : ℚ)) / (f.duration_us / 1000000) ∧
  f.fwd_packets_per_s = (f.fwd_packets : ℚ) / (f.duration_us / 1000000) ∧
  f.bwd_packets_per_s = (f.bwd_packets : ℚ) / (f.duration_us / 1000000)

/-- Claim C7: for every flow record whose last-seen clock is not behind
its creation clock, the duration is floored to 1 microsecond when the raw
duration is zero, it is positive in every case, and Flow Bytes/s and the
other rate features are the plain quotients by the duration in seconds
with a nonzero denominator, so their computation never divides by zero
and yields a finite rational. -/
theorem claim_C7_rate_safety (f : CICFlow)
    (h : f.start_time ≤ f.last_seen) : RateFormulas f := by
  have hpos : 0 < f.duration_us := by
    unfold CICFlow.duration_us
    dsimp only
    by_cases h0 : (f.last_seen - f.start_time) * 1000000 = 0
    · simp only [h0, if_pos]
      norm_num
    · simp only [h0, if_neg, not_false_iff]
      have hge : 0 ≤ (f.last_seen - f.start_time) * 1000000 :=
        mul_nonneg (sub_nonneg.mpr h) (by norm_num)
      exact lt_of_le_of_ne hge (Ne.symm h0)
  refine ⟨hpos, ?_, ?_, ?_, ?_, ?_, ?_⟩
  · intro heq
    unfold CICFlow.duration_us
    simp [heq]
  · have : 0 < f.duration_us / 1000000 := by positivity
    exact ne_of_gt this
  · unfold CICFlow.flow_bytes_per_s
    rw [if_pos hpos]
  · unfold CICFlow.flow_packets_per_s
    rw [if_pos hpos]
  · unfold CICFlow.fwd_packets_per_s
    rw [if_pos hpos]
  · unfold CICFlow.bwd_packets_per_s
    rw [if_pos hpos]

/-- Claim C7 witness: a freshly created record with zero raw duration
satisfies the hypothesis and all the rate-safety facts. -/
theorem claim_C7_witness :
    (CICFlow.init 5).start_time ≤ (CICFlow.init 5).last_seen ∧
    RateFormulas (CICFlow.init 5) :=
  ⟨by norm_num [CICFlow.init],
   claim_C7_rate_safety (CICFlow.init 5) (by norm_num [CICFlow.init])⟩

/- ===== Claim C6 : active/idle segmentation accounting ===== -/

/-- Timing invariant of the segmentation state after at least one packet:
the sum of the closed active durations accounts for the whole timeline
from the first packet up to the start of the open active segment. -/
def SegInv (t0 : ℚ) (f : CICFlow) : Prop :=
  ∃ l c, f.last_pkt_time = some l ∧ f.current_active_start = some c ∧
    f.active_times.sum = ((l - t0) - (l - c)) * 1000000

theorem SegInv_add_packet (t0 : ℚ) (f : CICFlow) (q : PktIn)
    (h : SegInv t0 f) :
    SegInv t0 (f.add_packet q.len q.fwd q.syn q.t q.t) := by
  obtain ⟨l, c, hl, hc, hsum⟩ := h
  unfold CICFlow.add_packet
  rw [hl, hc]
  dsimp only
  by_cases hiat : (q.t - l) * 1000000 > 1000000
  · rw [if_pos hiat]
    refine ⟨q.t, q.t, rfl, rfl, ?_⟩
    dsimp only
    rw [List.sum_append, List.sum_singleton, hsum]
    ring
  · rw [if_neg hiat]
    refine ⟨q.t, c, rfl, rfl, ?_⟩
    dsimp only
    rw [hsum]
    ring

theorem SegInv_foldl (t0 : ℚ) (ps : List PktIn) : ∀ (f : CICFlow),
    SegInv t0 f →
    SegInv t0 (ps.foldl (fun g q => g.add_packet q.len q.fwd q.syn q.t q.t) f) := by
  induction ps with
  | nil => intro f hf; exact hf
  | cons q rest ih =>
    intro f hf
    exact ih _ (SegInv_add_packet t0 f q hf)

theorem SegInv_first (p : PktIn) :
    SegInv p.t ((CICFlow.init p.t).add_packet p.len p.fwd p.syn p.t p.t) := by
  refine ⟨p.t, p.t, ?_, ?_, ?_⟩ <;>
    simp [CICFlow.init, CICFlow.add_packet]

/-- Claim C6 counterexample: the two-packet timing sequence 0s, 2s crosses
the 1s idle threshold once.  The closing active duration is computed from
the current packet time, so it already contains the 2s idle gap; the gap
is then appended to the idle list as well.  The two sums total 4,000,000us
against a flow duration of 2,000,000us while the open active segment is
empty, so the claimed approximation fails at this input. -/
theorem claim_C6_counterexample :
    (runFlow1 ⟨60, true, false, 0⟩ [⟨60, true, false, 2⟩]).active_times =
      [2000000] ∧
    (runFlow1 ⟨60, true, false, 0⟩ [⟨60, true, false, 2⟩]).idle_times =
      [2000000] ∧
    (runFlow1 ⟨60, true, false, 0⟩ [⟨60, true, false, 2⟩]).last_pkt_time =
      some 2 ∧
    (runFlow1 ⟨60, true, false, 0⟩ [⟨60, true, false, 2⟩]).current_active_start =
      some 2 ∧
    ((runFlow1 ⟨60, true, false, 0⟩ [⟨60, true, false, 2⟩]).last_seen -
      (runFlow1 ⟨60, true, false, 0⟩ [⟨60, true, false, 2⟩]).start_time) *
        1000000 = 2000000 ∧
    ¬ (|((2000000 : ℚ) + 2000000) - 2000000| ≤ ((2 : ℚ) - 2) * 1000000) := by
  refine ⟨?_, ?_, ?_, ?_, ?_, ?_⟩ <;>
    norm_num [runFlow1, CICFlow.init, CICFlow.add_packet]

/-- Claim C6 (amended): under the per-packet segmentation rule (a closed
active segment gets duration = this packet time - active-segment-start,
which spans the idle gap being closed), for every packet-timing sequence
the sum of the closed active durations alone satisfies
sum(active) = (last_pkt_time - first_time) - (open segment), exactly;
sum(active) + sum(idle) therefore exceeds the flow timeline by
sum(idle) - open_segment instead of matching it within one open-segment
tolerance. -/
theorem claim_C6_amended (p : PktIn) (ps : List PktIn) :
    ∃ l c, (runFlow1 p ps).last_pkt_time = some l ∧
      (runFlow1 p ps).current_active_start = some c ∧
      (runFlow1 p ps).active_times.sum = ((l - p.t) - (l - c)) * 1000000 ∧
      (runFlow1 p ps).active_times.sum + (runFlow1 p ps).idle_times.sum =
        ((l - p.t) - (l - c)) * 1000000 + (runFlow1 p ps).idle_times.sum := by
  have h : SegInv p.t (runFlow1 p ps) :=
    SegInv_foldl p.t ps _ (SegInv_first p)
  obtain ⟨l, c, hl, hc, hsum⟩ := h
  exact ⟨l, c, hl, hc, hsum, by rw [hsum]⟩

/- ===== Claim C4 : binary gate decision ===== -/

/-- Claim C4: the binary gate flags is_attack exactly when
attack_prob > ATTACK_THRESHOLD (0.25) or benign_prob <
CONFIDENT_BENIGN_THRESHOLD (0.80), where the probabilities are obtained
from the classifier on the vector remapped onto the binary schema; a
schema name matched neither directly nor through the feature_map
alternatives contributes 0, and the sanitization step maps every
non-finite value to 0. -/
theorem claim_C4_binary_gate (names : List String)
    (model : List ℚ → ℚ × ℚ) (fs : Features) :
    ((binary_gate names model fs).1 = true ↔
      ((model ((build_binary_vector names fs).map nan_to_num)).1 >
          ATTACK_THRESHOLD ∨
        (model ((build_binary_vector names fs).map nan_to_num)).2 <
          CONFIDENT_BENIGN_THRESHOLD)) ∧
    (∀ name, assocFind fs name = none →
      (∀ pr ∈ feature_map, pr.2 = name → assocFind fs pr.1 = none) →
      binary_feature_value fs name = PyFloat.num 0) ∧
    nan_to_num PyFloat.nan = 0 ∧ nan_to_num PyFloat.posinf = 0 ∧
    nan_to_num PyFloat.neginf = 0 := by
  refine ⟨?_, ?_, rfl, rfl, rfl⟩
  · unfold binary_gate
    dsimp only
    rw [Bool.or_eq_true, decide_eq_true_eq, decide_eq_true_eq]
  · intro name hdirect halt
    unfold binary_feature_value
    rw [hdirect]
    have hnone : feature_map.findSome?
        (fun p => if p.2 = name then assocFind fs p.1 else none) = none := by
      rw [List.findSome?_eq_none_iff]
      intro p hp
      by_cases hpn : p.2 = name
      · rw [if_pos hpn]
        exact halt p hp hpn
      · rw [if_neg hpn]
    rw [hnone]

/-- Claim C4 witness: a schema with one field absent from the request,
scored by a model at (0.5, 0.9). -/
theorem claim_C4_witness :
    ((binary_gate ["Active Mean"] (fun _ => (0.5, 0.9)) []).1 = true ↔
      (((0.5 : ℚ), (0.9 : ℚ)).1 > ATTACK_THRESHOLD ∨
        ((0.5 : ℚ), (0.9 : ℚ)).2 < CONFIDENT_BENIGN_THRESHOLD)) ∧
    binary_feature_value [] "Active Mean" = PyFloat.num 0 := by
  have h := claim_C4_binary_gate ["Active Mean"] (fun _ => (0.5, 0.9)) []
  exact ⟨h.1, h.2.1 "Active Mean" rfl (fun pr hpr hpn => rfl)⟩

/- ===== Claim C5 : confident-benign short circuit ===== -/

/-- Claim C5: if the binary gate did not flag is_attack and
attack_prob is at most 0.20, the handler finalizes the flow as BENIGN
with confidence max(attack_prob, benign_prob); the result is one fixed
record independent of the rule function and of the multiclass model, so
neither component is invoked on the short-circuit path. -/
theorem claim_C5_short_circuit (ruleFn : Features → String × ℚ)
    (names : List String) (model : List ℚ → ℚ × ℚ)
    (mcModel : Option (Features → MCOutcome)) (src dst : String)
    (fs : Features)
    (hflag : ¬((model ((build_binary_vector names fs).map nan_to_num)).1 >
        ATTACK_THRESHOLD ∨
      (model ((build_binary_vector names fs).map nan_to_num)).2 <
        CONFIDENT_BENIGN_THRESHOLD))
    (hlow : ¬((model ((build_binary_vector names fs).map nan_to_num)).1 >
        (0.20 : ℚ))) :
    predict_flow ruleFn names (some model) mcModel src dst fs =
      Except.ok
        { src_ip := src
          dst_ip := dst
          dst_port := fs.get "Destination Port" 0
          label := "BENIGN"
          attack_type := "BENIGN"
          confidence :=
            max (model ((build_binary_vector names fs).map nan_to_num)).1
              (model ((build_binary_vector names fs).map nan_to_num)).2
          is_malicious := false
          detection_method := "ml"
          ml_attack_prob :=
            (model ((build_binary_vector names fs).map nan_to_num)).1
          ml_attack_type := "BENIGN" } := by
  have hA : decide
      ((model ((build_binary_vector names fs).map nan_to_num)).1 >
        ATTACK_THRESHOLD) = false :=
    decide_eq_false (fun hh => hflag (Or.inl hh))
  have hB : decide
      ((model ((build_binary_vector names fs).map nan_to_num)).2 <
        CONFIDENT_BENIGN_THRESHOLD) = false :=
    decide_eq_false (fun hh => hflag (Or.inr hh))
  have hC : decide
      ((model ((build_binary_vector names fs).map nan_to_num)).1 >
        (0.20 : ℚ)) = false :=
    decide_eq_false hlow
  unfold predict_flow binary_gate
  dsimp only
  rw [hA, hB, hC]
  rfl

/-- Claim C5 witness: the all-zero request with destination port 443
scored at (0.1, 0.9) is finalized BENIGN; the rule function is the real
rule engine and the multiclass model is absent. -/
theorem claim_C5_witness :
    predict_flow rule_based_classification []
        (some (fun _ => (0.1, 0.9))) none "192.168.0.7" "192.168.0.8"
        [("Destination Port", PyFloat.num 443)] =
      Except.ok
        { src_ip := "192.168.0.7"
          dst_ip := "192.168.0.8"
          dst_port := 443
          label := "BENIGN"
          attack_type := "BENIGN"
          confidence := 0.9
          is_malicious := false
          detection_method := "ml"
          ml_attack_prob := 0.1
          ml_attack_type := "BENIGN" } := by
  have h := claim_C5_short_circuit rule_based_classification []
      (fun _ => (0.1, 0.9)) none "192.168.0.7" "192.168.0.8"
      [("Destination Port", PyFloat.num 443)]
      (by norm_num [ATTACK_THRESHOLD, CONFIDENT_BENIGN_THRESHOLD])
      (by norm_num)
  rw [h]
  have hmax : max (0.1 : ℚ) (0.9 : ℚ) = 0.9 := by
    rw [max_eq_right]
    norm_num
  simp only [Features.get, assocFind, nan_to_num, if_pos, hmax]

/- ===== Claim C2 : fusion precedence ===== -/

/-- Claim C2: once the fusion step is reached, a rule result with
confidence at least 0.70 and a type other than Unknown Attack wins with
method rules; otherwise a multiclass result that is not BENIGN with
confidence above 0.30 wins with method ml-multiclass; otherwise the rule
result is used with method rules. -/
theorem claim_C2_fusion (rt mt src dst : String) (rc mc ap bp : ℚ)
    (top3 : List (String × ℚ)) (names : List String) (fs : Features)
    (henter : (ap > ATTACK_THRESHOLD ∨ bp < CONFIDENT_BENIGN_THRESHOLD) ∨
      ap > (0.20 : ℚ)) :
    ∃ e : Event,
      predict_flow (fun _ => (rt, rc)) names (some (fun _ => (ap, bp)))
          (some (fun _ => Except.ok (mt, mc, top3))) src dst fs =
        Except.ok e ∧
      ((rc ≥ 0.70 ∧ rt ≠ "Unknown Attack") →
        e.attack_type = rt ∧ e.confidence = rc ∧
          e.detection_method = "rules") ∧
      (¬(rc ≥ 0.70 ∧ rt ≠ "Unknown Attack") →
        (mt ≠ "BENIGN" ∧ mc > 0.30) →
        e.attack_type = mt ∧ e.confidence = mc ∧
          e.detection_method = "ml-multiclass") ∧
      (¬(rc ≥ 0.70 ∧ rt ≠ "Unknown Attack") →
        ¬(mt ≠ "BENIGN" ∧ mc > 0.30) →
        e.attack_type = rt ∧ e.confidence = rc ∧
          e.detection_method = "rules") := by
  have hcond : ((decide (ap > ATTACK_THRESHOLD) ||
      decide (bp < CONFIDENT_BENIGN_THRESHOLD)) ||
      decide (ap > (0.20 : ℚ))) = true := by
    simp only [Bool.or_eq_true, decide_eq_true_eq]
    tauto
  unfold predict_flow binary_gate classify_attack_type_ml
  dsimp only
  rw [hcond]
  simp only [if_true]
  refine ⟨_, rfl, ?_, ?_, ?_⟩
  · intro h1
    rw [if_pos h1]
    exact ⟨rfl, rfl, rfl⟩
  · intro h1 h2
    rw [if_neg h1, if_pos h2]
    exact ⟨rfl, rfl, rfl⟩
  · intro h1 h2
    rw [if_neg h1, if_neg h2]
    exact ⟨rfl, rfl, rfl⟩

/-- Claim C2 witness: rule result (PortScan, 0.75) against multiclass
result (DDoS, 0.92) yields attack type PortScan with method rules, the
precedence test of the claim. -/
theorem claim_C2_witness :
    ∃ e : Event,
      predict_flow (fun _ => ("PortScan", 0.75)) []
          (some (fun _ => (0.5, 0.5)))
          (some (fun _ => Except.ok ("DDoS", 0.92, [])))
          "10.0.0.1" "10.0.0.2" [] =
        Except.ok e ∧
      e.attack_type = "PortScan" ∧ e.confidence = 0.75 ∧
        e.detection_method = "rules" := by
  obtain ⟨e, he, h1, _, _⟩ :=
    claim_C2_fusion "PortScan" "DDoS" "10.0.0.1" "10.0.0.2" 0.75 0.92 0.5 0.5
      [] [] []
      (Or.inl (Or.inl (by norm_num [ATTACK_THRESHOLD])))
  exact ⟨e, he, h1 ⟨by norm_num, by decide⟩⟩

/- ===== Claim C9 : multiclass failure degradation ===== -/

/-- Claim C9 (code bug): a raised exception in the multiclass pipeline is
caught and degrades to the low-confidence 3-tuple (Unknown, 0.5, []),
but the model-unavailable branch returns the 2-tuple (Unknown, 0.5); the
handler unpacks three names from that value, so for any flow entering
the fusion step (here attack_prob 0.30) the prediction raises ValueError
and the request fails with HTTP 400 instead of degrading. -/
theorem claim_C9_unavailable_crash :
    classify_attack_type_ml none [] = MLResult.pair "Unknown" 0.5 ∧
    (∀ (fs : Features) (msg : String),
      classify_attack_type_ml (some (fun _ => Except.error msg)) fs =
        MLResult.triple "Unknown" 0.5 []) ∧
    predict_flow rule_based_classification []
        (some (fun _ => (0.30, 0.90))) none "10.0.0.5" "10.0.0.9" [] =
      Except.error
        "ValueError: not enough values to unpack (expected 3, got 2)" := by
  refine ⟨rfl, fun fs msg => rfl, ?_⟩
  have hcond : ((decide ((0.30 : ℚ) > ATTACK_THRESHOLD) ||
      decide ((0.90 : ℚ) < CONFIDENT_BENIGN_THRESHOLD)) ||
      decide ((0.30 : ℚ) > (0.20 : ℚ))) = true := by
    have h : (0.30 : ℚ) > ATTACK_THRESHOLD := by norm_num [ATTACK_THRESHOLD]
    simp [h]
  unfold predict_flow binary_gate classify_attack_type_ml
  dsimp only
  rw [hcond]
  rfl

/- ===== Claim C10 : final label and confidence source ===== -/

/-- Claim C10: with both models responding, the final label is ATTACK
exactly when attack_prob > 0.20 or benign_prob < 0.80 (so a flow the
gate judged benign is still forced to ATTACK once attack_prob > 0.20);
on an ATTACK verdict the reported confidence comes from the chosen
attack-type source, rule engine or multiclass, and only a BENIGN verdict
reports the binary confidence max(attack_prob, benign_prob). -/
theorem claim_C10_final_label (ruleFn : Features → String × ℚ)
    (names : List String) (model : List ℚ → ℚ × ℚ)
    (mcFn : Features → MCOutcome) (src dst : String) (fs : Features)
    (out : String × ℚ × List (String × ℚ))
    (hmc : mcFn fs = Except.ok out) :
    ∃ e : Event,
      predict_flow ruleFn names (some model) (some mcFn) src dst fs =
        Except.ok e ∧
      (e.label = "ATTACK" ↔
        ((model ((build_binary_vector names fs).map nan_to_num)).1 >
            (0.20 : ℚ) ∨
          (model ((build_binary_vector names fs).map nan_to_num)).2 <
            CONFIDENT_BENIGN_THRESHOLD)) ∧
      (e.is_malicious = true ↔ e.label = "ATTACK") ∧
      (e.label = "ATTACK" →
        (e.detection_method = "rules" ∧ e.confidence = (ruleFn fs).2 ∧
            e.attack_type = (ruleFn fs).1) ∨
        (e.detection_method = "ml-multiclass" ∧ e.confidence = out.2.1 ∧
            e.attack_type = out.1)) ∧
      (e.label = "BENIGN" →
        e.confidence =
          max (model ((build_binary_vector names fs).map nan_to_num)).1
            (model ((build_binary_vector names fs).map nan_to_num)).2) := by
  have hsub : (model ((build_binary_vector names fs).map nan_to_num)).1 >
      ATTACK_THRESHOLD →
      (model ((build_binary_vector names fs).map nan_to_num)).1 >
        (0.20 : ℚ) := by
    intro h
    have : (0.20 : ℚ) < ATTACK_THRESHOLD := by norm_num [ATTACK_THRESHOLD]
    exact lt_trans this h
  by_cases henter :
      ((model ((build_binary_vector names fs).map nan_to_num)).1 >
          ATTACK_THRESHOLD ∨
        (model ((build_binary_vector names fs).map nan_to_num)).2 <
          CONFIDENT_BENIGN_THRESHOLD) ∨
      (model ((build_binary_vector names fs).map nan_to_num)).1 >
        (0.20 : ℚ)
  · have hcond : ((decide
        ((model ((build_binary_vector names fs).map nan_to_num)).1 >
          ATTACK_THRESHOLD) ||
        decide
        ((model ((build_binary_vector names fs).map nan_to_num)).2 <
          CONFIDENT_BENIGN_THRESHOLD)) ||
        decide
        ((model ((build_binary_vector names fs).map nan_to_num)).1 >
          (0.20 : ℚ))) = true := by
      simp only [Bool.or_eq_true, decide_eq_true_eq]
      tauto
    have hrhs :
        ((model ((build_binary_vector names fs).map nan_to_num)).1 >
            (0.20 : ℚ) ∨
          (model ((build_binary_vector names fs).map nan_to_num)).2 <
            CONFIDENT_BENIGN_THRESHOLD) := by
      rcases henter with h | h
      · rcases h with h | h
        · exact Or.inl (hsub h)
        · exact Or.inr h
      · exact Or.inl h
    unfold predict_flow binary_gate classify_attack_type_ml
    dsimp only
    rw [hcond, hmc]
    simp only [if_true]
    refine ⟨_, rfl, ?_, ?_, ?_, ?_⟩
    · exact iff_of_true rfl hrhs
    · exact iff_of_true rfl rfl
    · intro _
      by_cases h1 : (ruleFn fs).2 ≥ 0.70 ∧ (ruleFn fs).1 ≠ "Unknown Attack"
      · rw [if_pos h1]
        exact Or.inl ⟨rfl, rfl, rfl⟩
      · rw [if_neg h1]
        by_cases h2 : out.1 ≠ "BENIGN" ∧ out.2.1 > 0.30
        · rw [if_pos h2]
          exact Or.inr ⟨rfl, rfl, rfl⟩
        · rw [if_neg h2]
          exact Or.inl ⟨rfl, rfl, rfl⟩
    · intro hb
      exact absurd hb (by simp)
  · have hA : decide
        ((model ((build_binary_vector names fs).map nan_to_num)).1 >
          ATTACK_THRESHOLD) = false :=
      decide_eq_false (fun hh => henter (Or.inl (Or.inl hh)))
    have hB : decide
        ((model ((build_binary_vector names fs).map nan_to_num)).2 <
          CONFIDENT_BENIGN_THRESHOLD) = false :=
      decide_eq_false (fun hh => henter (Or.inl (Or.inr hh)))
    have hC : decide
        ((model ((build_binary_vector names fs).map nan_to_num)).1 >
          (0.20 : ℚ)) = false :=
      decide_eq_false (fun hh => henter (Or.inr hh))
    have hrhs :
        ¬((model ((build_binary_vector names fs).map nan_to_num)).1 >
            (0.20 : ℚ) ∨
          (model ((build_binary_vector names fs).map nan_to_num)).2 <
            CONFIDENT_BENIGN_THRESHOLD) := by
      intro hh
      rcases hh with hh | hh
      · exact henter (Or.inr hh)
      · exact henter (Or.inl (Or.inr hh))
    unfold predict_flow binary_gate
    dsimp only
    rw [hA, hB, hC]
    simp only [Bool.or_false, Bool.false_or]
    refine ⟨_, rfl, ?_, ?_, ?_, ?_⟩
    · exact iff_of_false (by simp) hrhs
    · exact iff_of_false (by simp) (by simp)
    · intro ha
      exact absurd ha (by simp)
    · intro _
      rfl

/-- Claim C10 witness: attack_prob 0.22 with benign_prob 0.90 does not
trip the gate thresholds, yet the verdict is forced to ATTACK because
0.22 exceeds the 0.20 fusion-entry threshold. -/
theorem claim_C10_witness :
    ∃ e : Event,
      predict_flow rule_based_classification []
          (some (fun _ => (0.22, 0.90)))
          (some (fun _ => Except.ok ("DDoS", 0.9, [])))
          "172.16.0.3" "172.16.0.4" [] =
        Except.ok e ∧
      e.label = "ATTACK" := by
  obtain ⟨e, he, hiff, _, _, _⟩ :=
    claim_C10_final_label rule_based_classification []
      (fun _ => (0.22, 0.90)) (fun _ => Except.ok ("DDoS", 0.9, []))
      "172.16.0.3" "172.16.0.4" [] ("DDoS", 0.9, []) rfl
  exact ⟨e, he, hiff.mpr (Or.inl (by norm_num))⟩

/- ===== Claim C1 : emission uniqueness ===== -/

/-- Key used by the claim C1 traces. -/
def c1_key : FlowKey := get_flow_key "10.0.0.1" 1234 "10.0.0.2" 80

/-- First two packets of the counterexample trace: a 2-packet flow whose
first packet carries SYN, exactly the state in which the early-emit
check of packet_handler (extractor.py lines 334-336) fires. -/
def c1_first_two : List AggStep :=
  [AggStep.packet c1_key 60 true true 0 0,
   AggStep.packet c1_key 60 true false 0 0]

/-- Table entry holding the flow after the two prefix packets. -/
def c1_early_entry : TableEntry :=
  (assocFind (agg_run c1_first_two).active_flows c1_key).getD
    ⟨0, CICFlow.init 0⟩

/-- Counterexample trace: the early-emit trigger closes the 2-packet SYN
record, two later packets of the same connection re-create the key, and
the sweeper evicts the re-created record once it has been idle longer
than FLOW_TIMEOUT. -/
def c1_dup_steps : List AggStep :=
  c1_first_two ++
  [AggStep.early_emit c1_key,
   AggStep.packet c1_key 60 true true 1 1,
   AggStep.packet c1_key 60 true false 1 1,
   AggStep.sweep c1_key 10]

/-- Claim C1 counterexample: one flow key is emitted to the feature
extractor twice.  After the first two packets the live record satisfies
the early-emit guard of packet_handler (2 packets, at least one SYN), so
the ingestion path closes and emits it; the two later packets re-create
the key with a fresh record, and the sweeper, whose idle guard also
holds (10 - 1 > FLOW_TIMEOUT), emits the same key a second time: the
emission log carries key c1_key twice (two distinct records, generations
0 and 1), refuting per-key exactly-once emission. -/
theorem claim_C1_counterexample :
    assocFind (agg_run c1_first_two).active_flows c1_key =
      some c1_early_entry ∧
    c1_early_entry.flow.fwd_packets + c1_early_entry.flow.bwd_packets =
      2 ∧
    1 ≤ c1_early_entry.flow.syn_count ∧
    (agg_run c1_dup_steps).emitted.map Prod.fst = [c1_key, c1_key] ∧
    (agg_run c1_dup_steps).emitted.map Prod.snd = [0, 1] ∧
    ¬ ((agg_run c1_dup_steps).emitted.map Prod.fst).Nodup := by
  refine ⟨?_, ?_, ?_, ?_, ?_, ?_⟩ <;>
    norm_num [c1_first_two, c1_early_entry, c1_dup_steps, c1_key, agg_run,
      agg_step, packet_handler, send_flow_to_api, agg_init, assocFind,
      assocErase, assocUpdate, get_flow_key, endpointLe, MIN_PACKETS,
      FLOW_TIMEOUT, CICFlow.add_packet, CICFlow.init, List.filter]

/-- Claim C1 (amended): under every finite interleaving of ingestion
packets, early-emit triggers, sweeper evictions and shutdown flushes,
no flow RECORD is ever handed to the feature extractor twice - the log
of emitted record generations has no duplicate, because both closure
paths go through the same atomic remove-and-return primitive - and
closing any live record through that primitive emits it exactly once
when it accumulated at least MIN_PACKETS packets, and zero times
otherwise.  Per flow KEY the guarantee does not hold: a key can be
re-created after an early emit and emitted again by the sweeper, as the
counterexample trace shows. -/
theorem claim_C1_amended (steps : List AggStep) :
    (emittedGens (agg_run steps)).Nodup ∧
    ∀ (k : FlowKey) (e : TableEntry),
      assocFind (agg_run steps).active_flows k = some e →
      (emittedGens (send_flow_to_api (agg_run steps) k)).count e.gen =
        (if MIN_PACKETS ≤ e.flow.fwd_packets + e.flow.bwd_packets then 1
         else 0) := by
  obtain ⟨hkeys, hgens, hem, hbt, hbe, hdisj⟩ := AggInv_run steps
  refine ⟨hem, ?_⟩
  intro k e hf
  have hgent : e.gen ∈ tableGens (agg_run steps) :=
    List.mem_map.mpr ⟨(k, e), assocFind_mem hf, rfl⟩
  have hnotem : e.gen ∉ emittedGens (agg_run steps) := hdisj _ hgent
  have hcount0 : (emittedGens (agg_run steps)).count e.gen = 0 :=
    List.count_eq_zero.mpr hnotem
  unfold send_flow_to_api
  rw [hf]
  dsimp only
  by_cases hmin : e.flow.fwd_packets + e.flow.bwd_packets < MIN_PACKETS
  · rw [if_pos hmin]
    have hsame : emittedGens
        { active_flows := assocErase (agg_run steps).active_flows k,
          emitted := (agg_run steps).emitted,
          next_gen := (agg_run steps).next_gen } =
        emittedGens (agg_run steps) := rfl
    rw [hsame, hcount0]
    rw [if_neg (Nat.not_le.mpr hmin)]
  · rw [if_neg hmin]
    have happ : emittedGens
        { active_flows := assocErase (agg_run steps).active_flows k,
          emitted := (agg_run steps).emitted ++ [(k, e.gen)],
          next_gen := (agg_run steps).next_gen } =
        emittedGens (agg_run steps) ++ [e.gen] := by
      simp [emittedGens]
    rw [happ, List.count_append, hcount0]
    simp only [List.count_singleton, Nat.zero_add]
    rw [if_pos (Nat.le_of_not_lt hmin)]
    simp

/-- Two-packet trace used by the claim C1 witness. -/
def c1_steps : List AggStep :=
  [AggStep.packet c1_key 60 true true 0 0,
   AggStep.packet c1_key 60 false false 1 1]

/-- Table entry holding the witness flow after the two packets. -/
def c1_entry : TableEntry :=
  (assocFind (agg_run c1_steps).active_flows c1_key).getD
    ⟨0, CICFlow.init 0⟩

/-- Claim C1 witness: on the concrete two-packet trace the live record is
found under its key, and closing it through send_flow_to_api emits its
generation exactly once. -/
theorem claim_C1_witness :
    assocFind (agg_run c1_steps).active_flows c1_key = some c1_entry ∧
    (emittedGens (send_flow_to_api (agg_run c1_steps) c1_key)).count
      c1_entry.gen = 1 := by
  have hfound :
      assocFind (agg_run c1_steps).active_flows c1_key = some c1_entry := by
    simp [c1_steps, c1_key, c1_entry, agg_run, agg_step, packet_handler,
      agg_init, assocFind, assocUpdate, get_flow_key, endpointLe]
  have h := (claim_C1_amended c1_steps).2 c1_key c1_entry hfound
  refine ⟨hfound, ?_⟩
  rw [h]
  have h2 : c1_entry.flow.fwd_packets + c1_entry.flow.bwd_packets = 2 := by
    simp [c1_entry, c1_steps, c1_key, agg_run, agg_step, packet_handler,
      agg_init, assocFind, assocUpdate, get_flow_key, endpointLe,
      CICFlow.add_packet, CICFlow.init]
  rw [if_pos (by rw [h2]; norm_num [MIN_PACKETS])]

end NetGuard
